import Mathlib

/-!
# Verification of the bounce easing-function generator

A shallow embedding, over `ℚ` (exact arithmetic), of the single source file
`src/bounce-function.js`.  The function `makeBounceFunction` there

* silently normalizes its two parameters (`timeBetweenBounces`, the decay
  ratio, and `bounceBackThreshold`, the rest threshold),
* counts the bounces needed to fall below the threshold with a `while` loop,
* accumulates the total unnormalized duration `totalTime`,
* precomputes per-segment tables `timeBreakPoints`, `timeHalfwayPoints`,
  `normalisingFactors`, `normalisingConstants`, and
* returns an evaluator that scans the segments linearly and evaluates the
  active segment's parabola.

JavaScript numbers are embedded as rationals; the `while` loop, which
diverges for negative thresholds, is embedded with explicit fuel and an
`Option` result (`none` = no result); the evaluator, whose segment scan can
fall through returning `undefined`, returns `Option ℚ`.
-/

namespace BounceFunction

/-- A JavaScript argument value as far as the generator's parameter
normalization can distinguish them: `undefined`, a (finite) number, or any
other value of which only the truthiness matters. -/
inductive JSVal where
  | undef : JSVal
  | num : ℚ → JSVal
  | other : Bool → JSVal
deriving DecidableEq

/-- JavaScript truthiness of a `JSVal` (a number is falsy exactly when it is
zero). -/
def truthy : JSVal → Bool
  | .undef => false
  | .num q => q != 0
  | .other b => b

/-- Whether `typeof v === "number"`. -/
def isNumber : JSVal → Bool
  | .num _ => true
  | _ => false

/-- Normalization of the first parameter (source lines 15-19): default to
`0.5` when `undefined`, not a number, or `≥ 1`; clamp a negative number
to `0`; keep anything else. -/
def normDecay : JSVal → ℚ
  | .num q => if 1 ≤ q then 1/2 else if q < 0 then 0 else q
  | _ => 1/2

/-- Defaulting of the second parameter (source line 22):
`if (!bounceBackThreshold || typeof timeBetweenBounces !== "number")` the
threshold becomes `0.01`.  Note the type test inspects the first parameter
(`timeBetweenBounces`), which at this point has already been normalized to a
number. -/
def defaultThreshold (decayNormalised tv : JSVal) : JSVal :=
  if truthy tv = false || isNumber decayNormalised = false then .num (1/100) else tv

/-- The bounce-counting `while` loop (source lines 26-32), with explicit
fuel: state is `(howFarUpItWillBounce, i)`, starting from `(1, 0)`; while
`howFarUpItWillBounce > bounceBackThreshold` the body sets
`howFarUpItWillBounce := r ^ (2*i)` and increments `i`; the exit value of
`i` is `numberOfBounces`.  `none` means the fuel ran out before the loop
exited (the loop diverges e.g. for negative thresholds). -/
def bounceLoop (r th : ℚ) : ℕ → ℚ → ℕ → Option ℕ
  | 0, _, _ => none
  | fuel + 1, howFarUpItWillBounce, i =>
    if th < howFarUpItWillBounce then bounceLoop r th fuel (r ^ (2 * i)) (i + 1)
    else some i

/-- Fuel sufficient for every terminating run of the loop on normalized
inputs (`0 ≤ r < 1`, `th > 0`): by Bernoulli's inequality
`r ^ (r.den * th.den) ≤ th` already holds, and the loop stops as soon as the
computed power drops below the threshold. -/
def loopFuel (r th : ℚ) : ℕ := 2 * r.den * th.den + 4

/-- `numberOfBounces` as the source computes it: the exit value of the
`while` loop started at `(1, 0)`, or `none` when the loop does not
terminate within `loopFuel` steps. -/
def numberOfBounces (r th : ℚ) : Option ℕ := bounceLoop r th (loopFuel r th) 1 0

/-- `totalTime` (source lines 35-38): `1 + Σ_{i=1}^{n} r^i * 2`, computed as
the source's `for` loop does. -/
def totalTime (r : ℚ) : ℕ → ℚ
  | 0 => 1
  | n + 1 => totalTime r n + r ^ (n + 1) * 2

/-- `timeBreakPoints` (source lines 41, 45-48): entry `0` is `1/totalTime`,
and each later entry adds the segment's normalized duration
`r^i / totalTime * 2` to the running `lastBreakPoint`.  `T` stands for the
closed-over `totalTime`. -/
def timeBreakPoints (r T : ℚ) : ℕ → ℚ
  | 0 => 1 / T
  | i + 1 => timeBreakPoints r T i + r ^ (i + 1) / T * 2

/-- `timeHalf` for bounce segment `i+1` (source line 49): half the width of
the segment between breakpoints `i` and `i+1`. -/
def timeHalf (r T : ℚ) (i : ℕ) : ℚ :=
  (timeBreakPoints r T (i + 1) - timeBreakPoints r T i) / 2

/-- `timeHalfwayPoints` (source lines 42, 50): the vertex time of each
segment's parabola; `0` for the initial fall, and `timeHalf + previous
breakpoint` for bounce segments. -/
def timeHalfwayPoints (r T : ℚ) : ℕ → ℚ
  | 0 => 0
  | i + 1 => timeHalf r T i + timeBreakPoints r T i

/-- `normalisingConstants` (source lines 44, 51): the baseline (vertex
value) of each segment's parabola, `0` for the initial fall and
`1 - r^(2i)` for bounce segment `i`. -/
def normalisingConstants (r : ℚ) : ℕ → ℚ
  | 0 => 0
  | i + 1 => 1 - r ^ (2 * (i + 1))

/-- `normalisingFactors` (source lines 43, 52): the quadratic scale of each
segment's parabola. -/
def normalisingFactors (r T : ℚ) : ℕ → ℚ
  | 0 => 1 / ((1 / T) * (1 / T))
  | i + 1 => (1 - normalisingConstants r (i + 1)) / (timeHalf r T i * timeHalf r T i)

/-- The value the evaluator returns once segment `i` is selected (source
line 63): `normalisingFactors[i] * (x - timeHalfwayPoints[i])^2 +
normalisingConstants[i]`. -/
def segmentValue (r T : ℚ) (i : ℕ) (x : ℚ) : ℚ :=
  normalisingFactors r T i * (x - timeHalfwayPoints r T i) * (x - timeHalfwayPoints r T i)
    + normalisingConstants r i

/-- The evaluator's linear scan (source lines 61-65): starting at segment
`start` with `rem` segments left to inspect, return the first index whose
breakpoint exceeds `x`, or `none` (the `undefined` fall-through) when no
segment matches. -/
def findSegment (r T x : ℚ) : ℕ → ℕ → Option ℕ
  | _, 0 => none
  | i, rem + 1 =>
    if x < timeBreakPoints r T i then some i else findSegment r T x (i + 1) rem

/-- The returned easing function (source lines 56-66), for the table built
from normalized decay ratio `r` and loop result `n`: return `1` at `x = 1`,
otherwise scan the `n + 1` segments and evaluate the active parabola;
`none` is the `undefined` fall-through. -/
def evaluate (r : ℚ) (n : ℕ) (x : ℚ) : Option ℚ :=
  if x = 1 then some 1
  else (findSegment r (totalTime r n) x 0 (n + 1)).map
    (fun i => segmentValue r (totalTime r n) i x)

/-- The whole of `makeBounceFunction` (source lines 9-67): normalize both
parameters, run the bounce-counting loop, and return the evaluator.  The
result is `none` when the build itself produces no function: when the loop
diverges, or when the kept threshold is not a number (its JS numeric
coercion inside the loop comparison is outside this model). -/
def makeBounceFunction (dv tv : JSVal) : Option (ℚ → Option ℚ) :=
  match defaultThreshold (.num (normDecay dv)) tv with
  | .num th => (numberOfBounces (normDecay dv) th).map (fun n => evaluate (normDecay dv) n)
  | _ => none

/-! ## Basic lemmas about the bounce-counting loop -/

theorem bounceLoop_continue (r th : ℚ) (fuel : ℕ) (a : ℚ) (i : ℕ) (h : th < a) :
    bounceLoop r th (fuel + 1) a i = bounceLoop r th fuel (r ^ (2 * i)) (i + 1) := by
  simp [bounceLoop, h]

theorem bounceLoop_stop (r th : ℚ) (fuel : ℕ) (a : ℚ) (i : ℕ) (h : ¬ th < a) :
    bounceLoop r th (fuel + 1) a i = some i := by
  simp [bounceLoop, h]

theorem bounceLoop_le (r th : ℚ) :
    ∀ fuel a i n, bounceLoop r th fuel a i = some n → i ≤ n := by
  intro fuel
  induction fuel with
  | zero => intro a i n h; simp [bounceLoop] at h
  | succ fuel ih =>
    intro a i n h
    rw [bounceLoop] at h
    by_cases hc : th < a
    · rw [if_pos hc] at h
      exact le_trans (Nat.le_succ i) (ih _ _ _ h)
    · rw [if_neg hc] at h
      simp only [Option.some.injEq] at h
      omega

/-- When the threshold is at least the initial height `1`, the loop exits at
once with `numberOfBounces = 0`. -/
theorem numberOfBounces_of_one_le (r th : ℚ) (h : 1 ≤ th) :
    numberOfBounces r th = some 0 := by
  have hf : loopFuel r th = (2 * r.den * th.den + 3) + 1 := by simp [loopFuel]
  rw [numberOfBounces, hf]
  exact bounceLoop_stop _ _ _ _ _ (by exact not_lt.mpr h)

theorem loopFuel_half : loopFuel (1/2) (1/100) = 404 := by norm_num [loopFuel]

/-- Concrete run: default parameters give five bounces. -/
theorem numberOfBounces_half : numberOfBounces (1/2) (1/100) = some 5 := by
  rw [numberOfBounces, loopFuel_half]
  show bounceLoop (1/2) (1/100) (403+1) 1 0 = some 5
  rw [bounceLoop_continue _ _ _ _ _ (by norm_num)]
  norm_num
  show bounceLoop (1/2) (1/100) (402+1) 1 1 = some 5
  rw [bounceLoop_continue _ _ _ _ _ (by norm_num)]
  norm_num
  show bounceLoop (1/2) (1/100) (401+1) (1/4) 2 = some 5
  rw [bounceLoop_continue _ _ _ _ _ (by norm_num)]
  norm_num
  show bounceLoop (1/2) (1/100) (400+1) (1/16) 3 = some 5
  rw [bounceLoop_continue _ _ _ _ _ (by norm_num)]
  norm_num
  show bounceLoop (1/2) (1/100) (399+1) (1/64) 4 = some 5
  rw [bounceLoop_continue _ _ _ _ _ (by norm_num)]
  norm_num
  show bounceLoop (1/2) (1/100) (398+1) (1/256) 5 = some 5
  rw [bounceLoop_stop _ _ _ _ _ (by norm_num)]

theorem loopFuel_zero : loopFuel 0 (1/100) = 204 := by norm_num [loopFuel]

/-- Concrete run: a decay ratio clamped to `0` gives two loop iterations
(`0^0 = 1` is still above the threshold, `0^2 = 0` is not), so
`numberOfBounces = 2`. -/
theorem numberOfBounces_zero : numberOfBounces 0 (1/100) = some 2 := by
  rw [numberOfBounces, loopFuel_zero]
  show bounceLoop 0 (1/100) (203+1) 1 0 = some 2
  rw [bounceLoop_continue _ _ _ _ _ (by norm_num)]
  norm_num
  show bounceLoop 0 (1/100) (202+1) 1 1 = some 2
  rw [bounceLoop_continue _ _ _ _ _ (by norm_num)]
  norm_num
  show bounceLoop 0 (1/100) (201+1) 0 2 = some 2
  rw [bounceLoop_stop _ _ _ _ _ (by norm_num)]

/-! ### Sufficiency of `loopFuel`

On the accepted domain (`0 ≤ r < 1`, `th > 0`) the loop always terminates
within `loopFuel` steps, so the `some n` hypotheses of the claim theorems
never hold vacuously: `numberOfBounces` is `some` for every accepted pair. -/

/-- Geometric decay against a linear budget: if `0 ≤ t` and
`t * q ≤ q - 1`, then `t ^ m * (q + m) ≤ q`. -/
theorem pow_mul_linear_le (t q : ℚ) (ht0 : 0 ≤ t) (hq : 1 ≤ q) (htq : t * q ≤ q - 1) :
    ∀ m : ℕ, t ^ m * (q + m) ≤ q := by
  intro m
  induction m with
  | zero => simp
  | succ m ih =>
    have hu : 0 ≤ t ^ m := pow_nonneg ht0 m
    have hqm : (0:ℚ) ≤ q + m := by positivity
    push_cast
    have expand : t ^ (m + 1) * (q + (m + 1)) = t * (t ^ m * (q + m)) + t * t ^ m := by
      ring
    rw [expand]
    have h1 : t * (t ^ m * (q + m)) ≤ t * q := mul_le_mul_of_nonneg_left ih ht0
    have h2 : t * t ^ m ≤ 1 := by
      have htle : t ≤ 1 := by nlinarith
      calc t * t ^ m ≤ 1 * 1 := by
            apply mul_le_mul htle (pow_le_one₀ ht0 htle) hu (by norm_num)
        _ = 1 := by norm_num
    linarith

/-- On the accepted domain, `r ^ (r.den * th.den) ≤ th`. -/
theorem pow_den_mul_den_le (r th : ℚ) (h0 : 0 ≤ r) (h1 : r < 1) (hth : 0 < th) :
    r ^ (r.den * th.den) ≤ th := by
  have hq1 : (1:ℚ) ≤ (r.den : ℚ) := by exact_mod_cast r.den_pos
  have hqpos : (0:ℚ) < (r.den : ℚ) := by linarith
  have hbpos : (0:ℚ) < (th.den : ℚ) := by exact_mod_cast th.den_pos
  have hrq : r * (r.den : ℚ) = (r.num : ℚ) := by
    have h := div_mul_cancel₀ (r.num : ℚ) (ne_of_gt hqpos)
    rwa [Rat.num_div_den] at h
  have hnumlt : r.num < (r.den : ℤ) := by
    have : (r.num : ℚ) < (r.den : ℚ) := by
      rw [← hrq]
      nlinarith
    exact_mod_cast this
  have htq : r * (r.den : ℚ) ≤ (r.den : ℚ) - 1 := by
    rw [hrq]
    have : r.num + 1 ≤ (r.den : ℤ) := hnumlt
    have hcast : (r.num : ℚ) + 1 ≤ (r.den : ℚ) := by exact_mod_cast this
    linarith
  have hmain := pow_mul_linear_le r (r.den : ℚ) h0 hq1 htq (r.den * th.den)
  have hcast : ((r.den * th.den : ℕ) : ℚ) = (r.den : ℚ) * (th.den : ℚ) := by push_cast; ring
  rw [hcast] at hmain
  -- `r ^ m ≤ q / (q + q*b) = 1 / (1 + b)`
  have hsum : (0:ℚ) < (r.den : ℚ) + (r.den : ℚ) * (th.den : ℚ) := by positivity
  have hpow : r ^ (r.den * th.den) ≤ (r.den : ℚ) / ((r.den : ℚ) + (r.den : ℚ) * (th.den : ℚ)) := by
    rw [le_div_iff₀ hsum]
    exact hmain
  have hthnum : (1 : ℤ) ≤ th.num := Rat.num_pos.mpr hth
  have hthden : (1:ℚ) ≤ th * (th.den : ℚ) := by
    have h := div_mul_cancel₀ (th.num : ℚ) (ne_of_gt hbpos)
    rw [Rat.num_div_den] at h
    rw [h]
    exact_mod_cast hthnum
  have hfrac : (r.den : ℚ) / ((r.den : ℚ) + (r.den : ℚ) * (th.den : ℚ)) ≤ th := by
    rw [div_le_iff₀ hsum]
    nlinarith
  linarith

/-- If `r ^ M ≤ th`, the loop halts once the counter passes `M/2`, so any
fuel covering the remaining distance plus two final checks suffices. -/
theorem bounceLoop_isSome_of_pow_le (r th : ℚ) (h0 : 0 ≤ r) (h1 : r ≤ 1) (M : ℕ)
    (hM : r ^ M ≤ th) :
    ∀ d fuel i a, M ≤ 2 * i + 2 * d → d + 2 ≤ fuel →
      (bounceLoop r th fuel a i).isSome = true := by
  intro d
  induction d with
  | zero =>
    intro fuel i a hMi hfuel
    obtain ⟨f, rfl⟩ : ∃ f, fuel = f + 1 := ⟨fuel - 1, by omega⟩
    by_cases hc : th < a
    · rw [bounceLoop_continue _ _ _ _ _ hc]
      obtain ⟨g, rfl⟩ : ∃ g, f = g + 1 := ⟨f - 1, by omega⟩
      have hstop : ¬ th < r ^ (2 * i) := by
        have : r ^ (2 * i) ≤ r ^ M := pow_le_pow_of_le_one h0 h1 (by omega)
        exact not_lt.mpr (le_trans this hM)
      rw [bounceLoop_stop _ _ _ _ _ hstop]
      rfl
    · rw [bounceLoop_stop _ _ _ _ _ hc]
      rfl
  | succ d ih =>
    intro fuel i a hMi hfuel
    obtain ⟨f, rfl⟩ : ∃ f, fuel = f + 1 := ⟨fuel - 1, by omega⟩
    by_cases hc : th < a
    · rw [bounceLoop_continue _ _ _ _ _ hc]
      exact ih f (i + 1) (r ^ (2 * i)) (by omega) (by omega)
    · rw [bounceLoop_stop _ _ _ _ _ hc]
      rfl

/-- On the accepted domain the build always terminates: `numberOfBounces`
is `some` for every normalized decay ratio in `[0, 1)` and positive
threshold. -/
theorem numberOfBounces_isSome (r th : ℚ) (h0 : 0 ≤ r) (h1 : r < 1) (hth : 0 < th) :
    (numberOfBounces r th).isSome = true := by
  rw [numberOfBounces]
  exact bounceLoop_isSome_of_pow_le r th h0 (le_of_lt h1) (r.den * th.den)
    (pow_den_mul_den_le r th h0 h1 hth) (r.den * th.den) (loopFuel r th) 0 1
    (by omega)
    (by rw [loopFuel]; have := r.den_pos; have := th.den_pos; nlinarith)

/-! ## Lemmas about `totalTime` and the breakpoint table -/

theorem one_le_totalTime (r : ℚ) (h0 : 0 ≤ r) (n : ℕ) : 1 ≤ totalTime r n := by
  induction n with
  | zero => simp [totalTime]
  | succ n ih =>
    have hp : 0 ≤ r ^ (n + 1) * 2 := by positivity
    simp only [totalTime]
    linarith

theorem totalTime_pos (r : ℚ) (h0 : 0 ≤ r) (n : ℕ) : 0 < totalTime r n :=
  lt_of_lt_of_le one_pos (one_le_totalTime r h0 n)

theorem totalTime_mono (r : ℚ) (h0 : 0 ≤ r) : Monotone (totalTime r) := by
  apply monotone_nat_of_le_succ
  intro n
  have hp : 0 ≤ r ^ (n + 1) * 2 := by positivity
  simp only [totalTime]
  linarith

theorem totalTime_lt_succ (r : ℚ) (h0 : 0 < r) (n : ℕ) :
    totalTime r n < totalTime r (n + 1) := by
  have hp : 0 < r ^ (n + 1) * 2 := by positivity
  simp only [totalTime]
  linarith

theorem totalTime_r_zero (n : ℕ) : totalTime 0 n = 1 := by
  induction n with
  | zero => rfl
  | succ n ih => simp [totalTime, ih]

theorem timeBreakPoints_eq_div (r T : ℚ) (i : ℕ) :
    timeBreakPoints r T i = totalTime r i / T := by
  induction i with
  | zero => rfl
  | succ i ih =>
    simp only [timeBreakPoints, totalTime, ih]
    ring

theorem timeBreakPoints_last (r : ℚ) (h0 : 0 ≤ r) (n : ℕ) :
    timeBreakPoints r (totalTime r n) n = 1 := by
  rw [timeBreakPoints_eq_div]
  exact div_self (ne_of_gt (totalTime_pos r h0 n))

theorem timeBreakPoints_le (r : ℚ) (h0 : 0 ≤ r) (n : ℕ) {j i : ℕ} (hji : j ≤ i) :
    timeBreakPoints r (totalTime r n) j ≤ timeBreakPoints r (totalTime r n) i := by
  rw [timeBreakPoints_eq_div, timeBreakPoints_eq_div]
  have hT := totalTime_pos r h0 n
  have hm := totalTime_mono r h0 hji
  gcongr

theorem timeBreakPoints_lt_succ (r T : ℚ) (hr : 0 < r) (hT : 0 < T) (i : ℕ) :
    timeBreakPoints r T i < timeBreakPoints r T (i + 1) := by
  have hp : 0 < r ^ (i + 1) / T * 2 := by positivity
  simp only [timeBreakPoints]
  linarith

theorem timeBreakPoints_zero_pos (r T : ℚ) (hT : 0 < T) :
    0 < timeBreakPoints r T 0 := by
  simp only [timeBreakPoints]
  positivity

theorem timeHalf_eq (r T : ℚ) (i : ℕ) : timeHalf r T i = r ^ (i + 1) / T := by
  simp only [timeHalf, timeBreakPoints]
  ring

/-! ## Lemmas about the evaluator's linear scan -/

/-- Soundness of the scan: a returned index is in range, its breakpoint
exceeds `x`, and no earlier inspected breakpoint does. -/
theorem findSegment_spec (r T x : ℚ) :
    ∀ rem start i, findSegment r T x start rem = some i →
      start ≤ i ∧ i < start + rem ∧ x < timeBreakPoints r T i ∧
        ∀ j, start ≤ j → j < i → ¬ x < timeBreakPoints r T j := by
  intro rem
  induction rem with
  | zero => intro start i h; simp [findSegment] at h
  | succ rem ih =>
    intro start i h
    rw [findSegment] at h
    by_cases hx : x < timeBreakPoints r T start
    · rw [if_pos hx] at h
      simp only [Option.some.injEq] at h
      subst h
      exact ⟨le_refl _, by omega, hx, fun j hj1 hj2 => by omega⟩
    · rw [if_neg hx] at h
      obtain ⟨h1, h2, h3, h4⟩ := ih (start + 1) i h
      refine ⟨by omega, by omega, h3, ?_⟩
      intro j hj1 hj2
      rcases eq_or_lt_of_le hj1 with rfl | hlt
      · exact hx
      · exact h4 j (by omega) hj2

/-- Completeness of the scan: if the last inspected breakpoint exceeds `x`,
the scan returns some index. -/
theorem findSegment_isSome (r T x : ℚ) :
    ∀ rem start, x < timeBreakPoints r T (start + rem) →
      (findSegment r T x start (rem + 1)).isSome = true := by
  intro rem
  induction rem with
  | zero =>
    intro start h
    simp only [Nat.add_zero] at h
    simp [findSegment, h]
  | succ rem ih =>
    intro start h
    rw [findSegment]
    by_cases hx : x < timeBreakPoints r T start
    · simp [hx]
    · rw [if_neg hx]
      exact ih (start + 1) (by rw [show start + 1 + rem = start + (rem + 1) by omega]; exact h)

/-- The scan returns exactly the first index whose breakpoint exceeds `x`. -/
theorem findSegment_eq_some (r T x : ℚ) :
    ∀ rem start k, start ≤ k → k < start + rem → x < timeBreakPoints r T k →
      (∀ j, start ≤ j → j < k → ¬ x < timeBreakPoints r T j) →
      findSegment r T x start rem = some k := by
  intro rem
  induction rem with
  | zero => intro start k h1 h2 _ _; omega
  | succ rem ih =>
    intro start k h1 h2 hk hmin
    rw [findSegment]
    rcases eq_or_lt_of_le h1 with rfl | hlt
    · rw [if_pos hk]
    · rw [if_neg (hmin start (le_refl _) hlt)]
      exact ih (start + 1) k (by omega) (by omega) hk
        (fun j hj1 hj2 => hmin j (by omega) hj2)

/-! ## Lemmas about segment parabola values -/

/-- The initial-fall segment's parabola is `T^2 * x^2`. -/
theorem segmentValue_zero_eq (r T x : ℚ) (hT : T ≠ 0) :
    segmentValue r T 0 x = T * T * (x * x) := by
  simp only [segmentValue, normalisingFactors, normalisingConstants, timeHalfwayPoints]
  field_simp
  ring

/-- A bounce segment's parabola evaluated anywhere whose squared offset from
the vertex equals the squared half-width gives exactly `1`. -/
theorem segmentValue_boundary (r T : ℚ) (i : ℕ) (x : ℚ) (ht : timeHalf r T i ≠ 0)
    (hx : (x - timeHalfwayPoints r T (i + 1)) * (x - timeHalfwayPoints r T (i + 1))
      = timeHalf r T i * timeHalf r T i) :
    segmentValue r T (i + 1) x = 1 := by
  simp only [segmentValue, normalisingFactors]
  rw [mul_assoc, hx]
  rw [div_mul_cancel₀ _ (mul_ne_zero ht ht)]
  ring

/-- A bounce segment's parabola at its own entry breakpoint is `1`. -/
theorem segmentValue_entry (r T : ℚ) (i : ℕ) (ht : timeHalf r T i ≠ 0) :
    segmentValue r T (i + 1) (timeBreakPoints r T i) = 1 := by
  apply segmentValue_boundary r T i _ ht
  simp only [timeHalfwayPoints]
  ring

/-- A bounce segment's parabola at its own exit breakpoint is `1`. -/
theorem segmentValue_exit (r T : ℚ) (i : ℕ) (ht : timeHalf r T i ≠ 0) :
    segmentValue r T (i + 1) (timeBreakPoints r T (i + 1)) = 1 := by
  apply segmentValue_boundary r T i _ ht
  simp only [timeHalfwayPoints, timeHalf]
  ring

/-- Arithmetic core of the range bound: an upward parabola with nonnegative
leading part `a / t^2`, vertex value `c`, `a + c = 1`, sampled within half-
width `t` of its vertex, stays in `[0, 1]`. -/
theorem parabola_bounds (a t d c : ℚ) (ha : 0 ≤ a) (hc : 0 ≤ c) (ht : 0 < t)
    (hsum : a + c = 1) (hd : d * d ≤ t * t) :
    0 ≤ a / (t * t) * d * d + c ∧ a / (t * t) * d * d + c ≤ 1 := by
  have htt : (0:ℚ) < t * t := by positivity
  have hf : 0 ≤ a / (t * t) := div_nonneg ha (le_of_lt htt)
  have hdd : 0 ≤ d * d := mul_self_nonneg d
  constructor
  · have : 0 ≤ a / (t * t) * d * d := by
      rw [mul_assoc]
      exact mul_nonneg hf hdd
    linarith
  · have h1 : a / (t * t) * d * d ≤ a / (t * t) * (t * t) := by
      rw [mul_assoc]
      exact mul_le_mul_of_nonneg_left hd hf
    have h2 : a / (t * t) * (t * t) = a := div_mul_cancel₀ a (ne_of_gt htt)
    linarith

/-- Range of a bounce segment's parabola over its own half-open segment. -/
theorem segmentValue_bounds (r T : ℚ) (i : ℕ) (x : ℚ) (h0 : 0 ≤ r) (h1 : r ≤ 1)
    (hlo : timeBreakPoints r T i ≤ x) (hhi : x < timeBreakPoints r T (i + 1)) :
    0 ≤ segmentValue r T (i + 1) x ∧ segmentValue r T (i + 1) x ≤ 1 := by
  have hpow0 : (0:ℚ) ≤ r ^ (2 * (i + 1)) := by positivity
  have hpow1 : r ^ (2 * (i + 1)) ≤ 1 := pow_le_one₀ h0 h1
  have hthalf : timeHalf r T i
      = (timeBreakPoints r T (i + 1) - timeBreakPoints r T i) / 2 := rfl
  have htpos : 0 < timeHalf r T i := by rw [hthalf]; linarith
  have hmid : timeHalfwayPoints r T (i + 1) = timeHalf r T i + timeBreakPoints r T i := rfl
  have hd1 : -(timeHalf r T i) ≤ x - timeHalfwayPoints r T (i + 1) := by
    rw [hmid, hthalf]
    linarith
  have hd2 : x - timeHalfwayPoints r T (i + 1) ≤ timeHalf r T i := by
    rw [hmid, hthalf]
    linarith
  have hdsq : (x - timeHalfwayPoints r T (i + 1)) * (x - timeHalfwayPoints r T (i + 1))
      ≤ timeHalf r T i * timeHalf r T i := by
    nlinarith
  have hval : segmentValue r T (i + 1) x
      = r ^ (2 * (i + 1)) / (timeHalf r T i * timeHalf r T i)
          * (x - timeHalfwayPoints r T (i + 1)) * (x - timeHalfwayPoints r T (i + 1))
        + (1 - r ^ (2 * (i + 1))) := by
    simp only [segmentValue, normalisingFactors, normalisingConstants]
    ring
  rw [hval]
  exact parabola_bounds (r ^ (2 * (i + 1))) (timeHalf r T i)
    (x - timeHalfwayPoints r T (i + 1)) (1 - r ^ (2 * (i + 1)))
    hpow0 (by linarith) htpos (by ring) hdsq

/-! ## Lemmas about the evaluator -/

theorem evaluate_one (r : ℚ) (n : ℕ) : evaluate r n 1 = some 1 := by
  rw [evaluate, if_pos rfl]

theorem segmentValue_zero_at_zero (r T : ℚ) : segmentValue r T 0 0 = 0 := by
  simp only [segmentValue, timeHalfwayPoints, normalisingConstants]
  ring

theorem evaluate_zero (r : ℚ) (n : ℕ) (h0 : 0 ≤ r) : evaluate r n 0 = some 0 := by
  rw [evaluate, if_neg (by norm_num : (0:ℚ) ≠ 1)]
  have hb : (0:ℚ) < timeBreakPoints r (totalTime r n) 0 :=
    timeBreakPoints_zero_pos r _ (totalTime_pos r h0 n)
  have hfind : findSegment r (totalTime r n) 0 0 (n + 1) = some 0 := by
    rw [findSegment, if_pos hb]
  rw [hfind, Option.map_some', segmentValue_zero_at_zero]

/-- If the decay ratio is `0`, every breakpoint equals `1`. -/
theorem timeBreakPoints_r_zero (n i : ℕ) :
    timeBreakPoints 0 (totalTime 0 n) i = 1 := by
  rw [timeBreakPoints_eq_div, totalTime_r_zero, totalTime_r_zero]
  norm_num

/-! ## C1: impact continuity -/

/-- C1 counterexample.  At the accepted pair (decay ratio `0`, threshold
`1/100`) the loop exits with two bounce segments of zero width: bounce
segment 1's half-width is `0` and its baseline is `1`, so the source
computes its parabola scale as `normalisingFactors[1] = (1 - 1) / (0 * 0)`,
a division of `0` by `0` — `NaN` in JavaScript — and segment 1's parabola
at its own upper breakpoint is `NaN`, not `1`.  (The `ℚ` embedding's total
division would turn this `0/0` into `0`, so the ill-definedness is
exhibited by the vanishing numerator and denominator of the scale rather
than by the quotient itself.) -/
theorem impact_continuity_counterexample :
    (0:ℚ) ≤ 0 ∧ (0:ℚ) < 1 ∧ truthy (.num (1/100)) = true ∧
    numberOfBounces 0 (1/100) = some 2 ∧
    timeHalf 0 (totalTime 0 2) 0 * timeHalf 0 (totalTime 0 2) 0 = 0 ∧
    1 - normalisingConstants 0 1 = 0 := by
  refine ⟨le_refl 0, by norm_num, by norm_num [truthy], numberOfBounces_zero, ?_, ?_⟩
  · simp only [timeHalf_eq]
    norm_num
  · norm_num [normalisingConstants]

/-- C1 amended.  Impact continuity: for every accepted parameter pair
(normalized decay ratio in `[0,1)`, threshold on which the loop exits), and
every segment index `i ≤ numberOfBounces`, the evaluator returns exactly
`1` at `timeBreakPoints[i]`; and whenever the decay ratio is strictly
positive, each segment's own parabola, evaluated at that segment's upper
breakpoint, equals `1`.  (At decay ratio `0` the bounce segments have zero
width, their parabola scale is the ill-defined `0/0` — `NaN` in the
source — so the parabola formulation holds only for positive decay
ratios; the evaluator formulation still holds at `0`, since there every
breakpoint equals `1` and the `x = 1` special case fires.) -/
theorem impact_continuity (r th : ℚ) (n : ℕ) (h0 : 0 ≤ r) (h1 : r < 1)
    (hn : numberOfBounces r th = some n) :
    (∀ i, i ≤ n → evaluate r n (timeBreakPoints r (totalTime r n) i) = some 1) ∧
    (0 < r → ∀ i, i ≤ n →
      segmentValue r (totalTime r n) i (timeBreakPoints r (totalTime r n) i) = 1) := by
  have hT : 0 < totalTime r n := totalTime_pos r h0 n
  constructor
  · intro i hi
    by_cases hbi : timeBreakPoints r (totalTime r n) i = 1
    · rw [hbi]
      exact evaluate_one r n
    · have hr : 0 < r := by
        rcases lt_or_eq_of_le h0 with h | h
        · exact h
        · exact absurd (timeBreakPoints_r_zero n i) (by rw [← h] at hbi; exact hbi)
      have hilt : i < n := by
        rcases lt_or_eq_of_le hi with h | h
        · exact h
        · exact absurd (h ▸ timeBreakPoints_last r h0 n) hbi
      rw [evaluate, if_neg hbi]
      have hfind : findSegment r (totalTime r n) (timeBreakPoints r (totalTime r n) i)
          0 (n + 1) = some (i + 1) := by
        apply findSegment_eq_some r _ _ (n + 1) 0 (i + 1) (by omega) (by omega)
        · exact timeBreakPoints_lt_succ r _ hr hT i
        · intro j _ hj2
          exact not_lt.mpr (timeBreakPoints_le r h0 n (by omega : j ≤ i))
      rw [hfind, Option.map_some']
      congr 1
      apply segmentValue_entry
      rw [timeHalf_eq]
      positivity
  · intro hr i hi
    cases i with
    | zero =>
      have hb0 : timeBreakPoints r (totalTime r n) 0 = 1 / totalTime r n := rfl
      rw [hb0, segmentValue_zero_eq r _ _ (ne_of_gt hT)]
      field_simp
    | succ j =>
      apply segmentValue_exit
      rw [timeHalf_eq]
      positivity

/-- Witness for the amended C1 at the default parameters, segment index 2,
exercising both the evaluator and the parabola formulation. -/
theorem impact_continuity_witness :
    (0:ℚ) ≤ 1/2 ∧ (1/2:ℚ) < 1 ∧ (0:ℚ) < 1/2 ∧
    numberOfBounces (1/2) (1/100) = some 5 ∧
    evaluate (1/2) 5 (timeBreakPoints (1/2) (totalTime (1/2) 5) 2) = some 1 ∧
    segmentValue (1/2) (totalTime (1/2) 5) 2 (timeBreakPoints (1/2) (totalTime (1/2) 5) 2) = 1 :=
  ⟨by norm_num, by norm_num, by norm_num, numberOfBounces_half,
    (impact_continuity (1/2) (1/100) 5 (by norm_num) (by norm_num)
      numberOfBounces_half).1 2 (by norm_num),
    (impact_continuity (1/2) (1/100) 5 (by norm_num) (by norm_num)
      numberOfBounces_half).2 (by norm_num) 2 (by norm_num)⟩

/-! ## C2: endpoint values -/

/-- C2.  Endpoint values: for every accepted parameter pair, the evaluator
returns `0` at `0` and `1` at `1`. -/
theorem endpoint_values (r th : ℚ) (n : ℕ) (h0 : 0 ≤ r) (h1 : r < 1)
    (hn : numberOfBounces r th = some n) :
    evaluate r n 0 = some 0 ∧ evaluate r n 1 = some 1 :=
  ⟨evaluate_zero r n h0, evaluate_one r n⟩

/-- Witness for C2 at the default parameters. -/
theorem endpoint_values_witness :
    (0:ℚ) ≤ 1/2 ∧ (1/2:ℚ) < 1 ∧ numberOfBounces (1/2) (1/100) = some 5 ∧
    evaluate (1/2) 5 0 = some 0 ∧ evaluate (1/2) 5 1 = some 1 :=
  ⟨by norm_num, by norm_num, numberOfBounces_half,
    (endpoint_values (1/2) (1/100) 5 (by norm_num) (by norm_num) numberOfBounces_half).1,
    (endpoint_values (1/2) (1/100) 5 (by norm_num) (by norm_num) numberOfBounces_half).2⟩

/-! ## C4: final breakpoint and totality of the lookup -/

/-- C4.  In exact arithmetic the last breakpoint equals `1` (the cumulative
sum telescopes to `totalTime / totalTime`), so on `[0, 1]` the evaluator
always produces a value: the `undefined` fall-through is unreachable. -/
theorem final_breakpoint_totality (r th : ℚ) (n : ℕ) (h0 : 0 ≤ r) (h1 : r < 1)
    (hn : numberOfBounces r th = some n) :
    timeBreakPoints r (totalTime r n) n = 1 ∧
    ∀ t, 0 ≤ t → t ≤ 1 → (evaluate r n t).isSome = true := by
  refine ⟨timeBreakPoints_last r h0 n, ?_⟩
  intro t ht0 ht1
  by_cases hteq : t = 1
  · rw [hteq, evaluate_one]
    rfl
  · rw [evaluate, if_neg hteq]
    have htlt : t < timeBreakPoints r (totalTime r n) (0 + n) := by
      rw [Nat.zero_add, timeBreakPoints_last r h0 n]
      exact lt_of_le_of_ne ht1 hteq
    have hscan := findSegment_isSome r (totalTime r n) t n 0 htlt
    rw [Option.isSome_map']
    exact hscan

/-- Witness for C4 at the default parameters, `t = 1/3`. -/
theorem final_breakpoint_totality_witness :
    (0:ℚ) ≤ 1/2 ∧ (1/2:ℚ) < 1 ∧ numberOfBounces (1/2) (1/100) = some 5 ∧
    (0:ℚ) ≤ 1/3 ∧ (1/3:ℚ) ≤ 1 ∧ (evaluate (1/2) 5 (1/3)).isSome = true :=
  ⟨by norm_num, by norm_num, numberOfBounces_half, by norm_num, by norm_num,
    (final_breakpoint_totality (1/2) (1/100) 5 (by norm_num) (by norm_num)
      numberOfBounces_half).2 (1/3) (by norm_num) (by norm_num)⟩

/-! ## C5: output range -/

/-- C5.  Output range: for every accepted parameter pair and every
`t ∈ [0, 1]`, any value the evaluator returns lies in `[0, 1]`. -/
theorem output_range (r th : ℚ) (n : ℕ) (h0 : 0 ≤ r) (h1 : r < 1)
    (hn : numberOfBounces r th = some n) (t y : ℚ) (ht0 : 0 ≤ t) (ht1 : t ≤ 1)
    (hy : evaluate r n t = some y) : 0 ≤ y ∧ y ≤ 1 := by
  by_cases hteq : t = 1
  · rw [hteq, evaluate_one, Option.some_inj] at hy
    rw [← hy]
    norm_num
  · rw [evaluate, if_neg hteq] at hy
    rw [Option.map_eq_some'] at hy
    obtain ⟨i, hfind, hval⟩ := hy
    obtain ⟨_, hrange, hup, hmin⟩ := findSegment_spec r _ t (n + 1) 0 i hfind
    cases i with
    | zero =>
      have hT : 0 < totalTime r n := totalTime_pos r h0 n
      rw [← hval, segmentValue_zero_eq r _ t (ne_of_gt hT)]
      have hb0 : t < 1 / totalTime r n := hup
      have hTt : totalTime r n * t < 1 := by
        rw [lt_div_iff₀ hT] at hb0
        linarith [hb0]
      have hTt0 : 0 ≤ totalTime r n * t := mul_nonneg (le_of_lt hT) ht0
      constructor
      · positivity
      · nlinarith [hTt, hTt0]
    | succ j =>
      have hlo : timeBreakPoints r (totalTime r n) j ≤ t :=
        not_lt.mp (hmin j (Nat.zero_le _) (Nat.lt_succ_self _))
      have hb := segmentValue_bounds r (totalTime r n) j t h0 (le_of_lt h1) hlo hup
      rw [← hval]
      exact hb

/-- Witness for C5 at the default parameters, `t = 1/2`. -/
theorem output_range_witness :
    (0:ℚ) ≤ 1/2 ∧ (1/2:ℚ) < 1 ∧ numberOfBounces (1/2) (1/100) = some 5 ∧
    evaluate (1/2) 5 (1/2) = some (769/1024) ∧
    (0:ℚ) ≤ 769/1024 ∧ (769:ℚ)/1024 ≤ 1 := by
  have he : evaluate (1/2) 5 (1/2) = some (769/1024) := by
    norm_num [evaluate, totalTime, timeBreakPoints, findSegment, segmentValue,
      timeHalfwayPoints, timeHalf, normalisingFactors, normalisingConstants]
  exact ⟨by norm_num, by norm_num, numberOfBounces_half, he,
    (output_range (1/2) (1/100) 5 (by norm_num) (by norm_num) numberOfBounces_half
      (1/2) (769/1024) (by norm_num) (by norm_num) he).1,
    (output_range (1/2) (1/100) 5 (by norm_num) (by norm_num) numberOfBounces_half
      (1/2) (769/1024) (by norm_num) (by norm_num) he).2⟩

/-! ## C3: table invariants -/

/-- C3 counterexample.  The pair (decayRatio `0`, threshold `1/100`) is
accepted (`0 ∈ [0,1)`, the threshold is truthy), the loop exits with
`numberOfBounces = 2`, yet `timeBreakPoints[0] < timeBreakPoints[1]` fails
(both equal `1`) and `normalisingConstants[1] < 1` fails (it equals `1`). -/
theorem table_invariants_counterexample :
    (0:ℚ) ≤ 0 ∧ (0:ℚ) < 1 ∧ truthy (.num (1/100)) = true ∧
    numberOfBounces 0 (1/100) = some 2 ∧
    ¬ timeBreakPoints 0 (totalTime 0 2) 0 < timeBreakPoints 0 (totalTime 0 2) 1 ∧
    ¬ normalisingConstants 0 1 < 1 := by
  refine ⟨le_refl 0, by norm_num, by norm_num [truthy], numberOfBounces_zero, ?_, ?_⟩
  · rw [timeBreakPoints_r_zero 2 0, timeBreakPoints_r_zero 2 1]
    exact lt_irrefl 1
  · norm_num [normalisingConstants]

/-- C3 amended.  For every accepted pair with strictly positive decay ratio,
the table invariants hold: breakpoints strictly increase,
`timeBreakPoints[0] = 1/totalTime`, `normalisingConstants[0] = 0`, and the
baselines strictly increase and stay below `1`.  (At decay ratio `0` the
breakpoints are all equal and the later baselines equal `1`.) -/
theorem table_invariants_amended (r th : ℚ) (n : ℕ) (h0 : 0 < r) (h1 : r < 1)
    (hn : numberOfBounces r th = some n) :
    (∀ i, i < n →
      timeBreakPoints r (totalTime r n) i < timeBreakPoints r (totalTime r n) (i + 1)) ∧
    timeBreakPoints r (totalTime r n) 0 = 1 / totalTime r n ∧
    normalisingConstants r 0 = 0 ∧
    (∀ i, i < n → normalisingConstants r i < normalisingConstants r (i + 1)) ∧
    (∀ i, i ≤ n → normalisingConstants r i < 1) := by
  have hT : 0 < totalTime r n := totalTime_pos r (le_of_lt h0) n
  refine ⟨fun i _ => timeBreakPoints_lt_succ r _ h0 hT i, rfl, rfl, ?_, ?_⟩
  · intro i _
    cases i with
    | zero =>
      have h2 : r ^ (2 * (0 + 1)) < 1 := by
        have := pow_lt_one₀ (le_of_lt h0) h1 (by norm_num : 2 * (0 + 1) ≠ 0)
        exact this
      simp only [normalisingConstants]
      linarith
    | succ j =>
      have hlt : r ^ (2 * (j + 1 + 1)) < r ^ (2 * (j + 1)) :=
        pow_lt_pow_right_of_lt_one₀ h0 h1 (by omega)
      simp only [normalisingConstants]
      linarith
  · intro i _
    cases i with
    | zero => norm_num [normalisingConstants]
    | succ j =>
      have hp : 0 < r ^ (2 * (j + 1)) := pow_pos h0 _
      simp only [normalisingConstants]
      linarith

/-- Witness for the amended C3 at the default parameters. -/
theorem table_invariants_amended_witness :
    (0:ℚ) < 1/2 ∧ (1/2:ℚ) < 1 ∧ numberOfBounces (1/2) (1/100) = some 5 ∧
    timeBreakPoints (1/2) (totalTime (1/2) 5) 0 < timeBreakPoints (1/2) (totalTime (1/2) 5) 1 ∧
    normalisingConstants (1/2) 3 < normalisingConstants (1/2) 4 ∧
    normalisingConstants (1/2) 5 < 1 :=
  ⟨by norm_num, by norm_num, numberOfBounces_half,
    (table_invariants_amended (1/2) (1/100) 5 (by norm_num) (by norm_num)
      numberOfBounces_half).1 0 (by norm_num),
    (table_invariants_amended (1/2) (1/100) 5 (by norm_num) (by norm_num)
      numberOfBounces_half).2.2.2.1 3 (by norm_num),
    (table_invariants_amended (1/2) (1/100) 5 (by norm_num) (by norm_num)
      numberOfBounces_half).2.2.2.2 5 (by norm_num)⟩

/-! ## C6: default-parameter constants -/

/-- C6.  With the parameters defaulted (or passed explicitly as `0.5` and
`0.01`), the build produces `numberOfBounces = 5`,
`totalTime = 2.9375 = 47/16`, and `timeBreakPoints[0] = 1/2.9375 = 16/47`. -/
theorem default_parameter_constants :
    normDecay .undef = 1/2 ∧
    defaultThreshold (.num (normDecay .undef)) .undef = .num (1/100) ∧
    numberOfBounces (1/2) (1/100) = some 5 ∧
    totalTime (1/2) 5 = 2.9375 ∧
    timeBreakPoints (1/2) (totalTime (1/2) 5) 0 = 1 / 2.9375 ∧
    (1 : ℚ) / 2.9375 = 16 / 47 := by
  refine ⟨rfl, by norm_num [defaultThreshold, truthy, isNumber], numberOfBounces_half,
    by norm_num [totalTime], ?_, by norm_num⟩
  norm_num [timeBreakPoints, totalTime]

/-! ## C7: negative-decay clamping -/

/-- C7 counterexample.  `decayRatio = -0.2` is indeed clamped to `0`, but
the loop then exits with `numberOfBounces = 2`, not `1`: the claimed count
is wrong. -/
theorem negative_decay_counterexample :
    normDecay (.num (-(1/5))) = 0 ∧
    defaultThreshold (.num (normDecay (.num (-(1/5))))) .undef = .num (1/100) ∧
    numberOfBounces 0 (1/100) ≠ some 1 := by
  refine ⟨by norm_num [normDecay], by norm_num [defaultThreshold, truthy, isNumber], ?_⟩
  rw [numberOfBounces_zero]
  simp

/-- C7 amended.  `decayRatio = -0.2` (with the threshold defaulted to
`0.01`) is clamped to `0` and produces `numberOfBounces = 2`: the loop body
runs once with apex `0^0 = 1 > 0.01` and once more with apex `0^2 = 0`,
incrementing the counter both times before stopping. -/
theorem negative_decay_amended :
    normDecay (.num (-(1/5))) = 0 ∧
    defaultThreshold (.num (normDecay (.num (-(1/5))))) .undef = .num (1/100) ∧
    numberOfBounces 0 (1/100) = some 2 :=
  ⟨by norm_num [normDecay], by norm_num [defaultThreshold, truthy, isNumber],
    numberOfBounces_zero⟩

/-! ## C8: minimum bounce count -/

/-- C8.  For every accepted pair with threshold below `1`, the loop body
executes at least once (the initial height `1` exceeds the threshold), so
any exit value of the loop is at least `1`. -/
theorem minimum_bounce_count (r th : ℚ) (n : ℕ) (h0 : 0 ≤ r) (h1 : r < 1)
    (hth : th < 1) (hn : numberOfBounces r th = some n) : 1 ≤ n := by
  rw [numberOfBounces] at hn
  have hf : loopFuel r th = (2 * r.den * th.den + 3) + 1 := by simp [loopFuel]
  rw [hf, bounceLoop_continue _ _ _ _ _ hth] at hn
  exact bounceLoop_le r th _ _ _ _ hn

/-- Witness for C8 at the default parameters. -/
theorem minimum_bounce_count_witness :
    (0:ℚ) ≤ 1/2 ∧ (1/2:ℚ) < 1 ∧ (1/100:ℚ) < 1 ∧
    numberOfBounces (1/2) (1/100) = some 5 ∧ 1 ≤ 5 :=
  ⟨by norm_num, by norm_num, by norm_num, numberOfBounces_half,
    minimum_bounce_count (1/2) (1/100) 5 (by norm_num) (by norm_num) (by norm_num)
      numberOfBounces_half⟩

/-! ## C9: parameter normalization -/

/-- C9.  Parameter normalization: the decay ratio is replaced by `0.5` when
absent, not a number, or `≥ 1`, by `0` when a negative number, and kept
otherwise; the normalized decay is always a number, so the threshold check's
type test is vacuous and the threshold is defaulted exactly when falsy;
consequently building with decay `1` equals building with `0.5`, and
building with threshold `0` equals building with the threshold absent. -/
theorem parameter_normalization :
    normDecay .undef = 1/2 ∧
    (∀ b, normDecay (.other b) = 1/2) ∧
    (∀ q : ℚ, 1 ≤ q → normDecay (.num q) = 1/2) ∧
    (∀ q : ℚ, q < 0 → normDecay (.num q) = 0) ∧
    (∀ q : ℚ, 0 ≤ q → q < 1 → normDecay (.num q) = q) ∧
    (∀ dv : JSVal, isNumber (.num (normDecay dv)) = true) ∧
    (∀ dv tv : JSVal, truthy tv = true → defaultThreshold (.num (normDecay dv)) tv = tv) ∧
    (∀ dv tv : JSVal, truthy tv = false →
      defaultThreshold (.num (normDecay dv)) tv = .num (1/100)) ∧
    (∀ tv : JSVal, makeBounceFunction (.num 1) tv = makeBounceFunction (.num (1/2)) tv) ∧
    (∀ dv : JSVal, makeBounceFunction dv (.num 0) = makeBounceFunction dv .undef) := by
  have hd1 : normDecay (.num 1) = normDecay (.num (1/2)) := by norm_num [normDecay]
  refine ⟨rfl, fun b => rfl, ?_, ?_, ?_, fun dv => rfl, ?_, ?_, ?_, ?_⟩
  · intro q hq
    simp [normDecay, if_pos hq]
  · intro q hq
    rw [normDecay, if_neg (by linarith), if_pos hq]
  · intro q hq0 hq1
    rw [normDecay, if_neg (by linarith), if_neg (by linarith)]
  · intro dv tv htv
    rw [defaultThreshold, if_neg]
    simp [htv, isNumber]
  · intro dv tv htv
    rw [defaultThreshold, if_pos]
    simp [htv]
  · intro tv
    rw [makeBounceFunction, makeBounceFunction, hd1]
  · intro dv
    have hth : defaultThreshold (.num (normDecay dv)) (.num 0)
        = defaultThreshold (.num (normDecay dv)) .undef := by
      simp [defaultThreshold, truthy]
    rw [makeBounceFunction, makeBounceFunction, hth]

/-- Witness for C9 at concrete arguments. -/
theorem parameter_normalization_witness :
    ((1:ℚ) ≤ 2 ∧ normDecay (.num 2) = 1/2) ∧
    ((-1:ℚ) < 0 ∧ normDecay (.num (-1)) = 0) ∧
    ((0:ℚ) ≤ 1/4 ∧ (1/4:ℚ) < 1 ∧ normDecay (.num (1/4)) = 1/4) ∧
    (truthy (.num (1/2)) = true ∧
      defaultThreshold (.num (normDecay .undef)) (.num (1/2)) = .num (1/2)) ∧
    makeBounceFunction (.num 1) (.num (1/100)) = makeBounceFunction (.num (1/2)) (.num (1/100)) :=
  ⟨⟨by norm_num, parameter_normalization.2.2.1 2 (by norm_num)⟩,
    ⟨by norm_num, parameter_normalization.2.2.2.1 (-1) (by norm_num)⟩,
    ⟨by norm_num, by norm_num, parameter_normalization.2.2.2.2.1 (1/4) (by norm_num) (by norm_num)⟩,
    ⟨by norm_num [truthy], parameter_normalization.2.2.2.2.2.2.1 .undef (.num (1/2))
      (by norm_num [truthy])⟩,
    parameter_normalization.2.2.2.2.2.2.2.2.1 (.num (1/100))⟩

/-! ## C10: threshold at least one -/

/-- C10.  If the threshold is truthy and at least `1`, the loop never runs:
`numberOfBounces = 0`, `totalTime = 1`, and the table collapses to the
single initial-fall segment with breakpoint `1`, vertex `0`, baseline `0`
and scale `1`; the evaluator returns `t * t` on `[0, 1)` and `1` at `1`. -/
theorem threshold_ge_one_collapse (r th : ℚ) (h0 : 0 ≤ r) (h1 : r < 1) (hth : 1 ≤ th) :
    truthy (.num th) = true ∧
    numberOfBounces r th = some 0 ∧
    totalTime r 0 = 1 ∧
    timeBreakPoints r (totalTime r 0) 0 = 1 ∧
    timeHalfwayPoints r (totalTime r 0) 0 = 0 ∧
    normalisingConstants r 0 = 0 ∧
    normalisingFactors r (totalTime r 0) 0 = 1 ∧
    (∀ t, 0 ≤ t → t < 1 → evaluate r 0 t = some (t * t)) ∧
    evaluate r 0 1 = some 1 := by
  have hT : totalTime r 0 = 1 := rfl
  refine ⟨by simp [truthy]; intro h; rw [h] at hth; norm_num at hth,
    numberOfBounces_of_one_le r th hth, hT, by rw [hT]; norm_num [timeBreakPoints],
    rfl, rfl, by rw [hT]; norm_num [normalisingFactors], ?_, evaluate_one r 0⟩
  intro t ht0 ht1
  rw [evaluate, if_neg (ne_of_lt ht1)]
  have hb : t < timeBreakPoints r (totalTime r 0) 0 := by
    rw [hT]
    simpa [timeBreakPoints] using ht1
  have hfind : findSegment r (totalTime r 0) t 0 (0 + 1) = some 0 := by
    rw [findSegment, if_pos hb]
  rw [hfind, Option.map_some']
  congr 1
  rw [segmentValue_zero_eq r _ t (by rw [hT]; norm_num), hT]
  ring

/-- Witness for C10 at `r = 1/2`, `th = 1`, `t = 1/2`. -/
theorem threshold_ge_one_collapse_witness :
    (0:ℚ) ≤ 1/2 ∧ (1/2:ℚ) < 1 ∧ (1:ℚ) ≤ 1 ∧
    numberOfBounces (1/2) 1 = some 0 ∧
    evaluate (1/2) 0 (1/2) = some (1/2 * (1/2)) :=
  ⟨by norm_num, by norm_num, le_refl 1,
    (threshold_ge_one_collapse (1/2) 1 (by norm_num) (by norm_num) (le_refl 1)).2.1,
    (threshold_ge_one_collapse (1/2) 1 (by norm_num) (by norm_num)
      (le_refl 1)).2.2.2.2.2.2.2.1 (1/2) (by norm_num) (by norm_num)⟩

end BounceFunction
